import Mathlib

/-!
TCP dissection layer of haka (`src/modules/proto-tcp/tcp.c`) and module
registry (`src/include/haka/module.h`)

A shallow embedding of the TCP protocol view: dissection of an IPv4 payload,
the copy-on-write promotion of the header overlay, the payload accessors and
the checksum computation, followed by the properties proved about them.

Conventions of the embedding

* A byte is a `Fin 256`.  The packet buffer is a list of bytes.
* A pointer is a base (the pointer a collaborator returned) plus a byte offset.
  Both collaborator pointers alias the one packet buffer: the read-only IPv4
  payload starts `ipv4_get_hdr_len` bytes into it, the modifiable data at its
  first byte.
* A `uint16` object is read from and written to memory in one byte order, the
  one in which the Internet checksum reads its words (most significant byte
  first).
* `struct tcp *` arguments are passed by value and the updated structure is
  returned; the `struct ipv4` the view points to travels inside it.
-/

namespace Haka

/-! ## Machine integers -/

/-- One byte of memory. -/
abbrev uint8 := Fin 256

/-- The byte holding the low eight bits of a number. -/
def byte (n : Nat) : uint8 := ⟨n % 256, Nat.mod_lt n (by decide)⟩

/-- Memory image of a `uint16` object: most significant byte first. -/
def uint16_bytes (w : Nat) : List uint8 := [byte (w / 256), byte w]

/-- The C expression `~x` stored into a `uint16`, for a 16-bit `x`. -/
def uint16_not (x : Nat) : Nat := 65535 - x % 65536

/-- Conversion of an integer to `int16`: reduction modulo 2^16 into
[-32768, 32767]. -/
def to_int16 (x : Int) : Int :=
  let r := x % 65536
  if r < 32768 then r else r - 65536

/-- Conversion of an integer to `uint16`: reduction modulo 2^16. -/
def to_uint16 (x : Int) : Nat := (x % 65536).toNat

/-- Number of values of `size_t` (64-bit target). -/
def SIZE_T_RANGE : Nat := 2 ^ 64

/-! ## Collaborators: the capture packet and the IPv4 layer -/

/-- Origin of a pointer: which collaborator call produced it. -/
inductive Base where
  /-- Pointer returned by `ipv4_get_payload` (read-only). -/
  | ipv4_payload
  /-- Pointer returned by `packet_data_modifiable`. -/
  | data_modifiable
  deriving DecidableEq

/-- A pointer: a base and a byte offset from it. -/
structure Ptr where
  base : Base
  off : Nat
  deriving DecidableEq

/-- Pointer arithmetic `p + n` on byte pointers. -/
def Ptr.add (p : Ptr) (n : Nat) : Ptr := { p with off := p.off + n }

/-- The capture-layer `struct packet`: its bytes, and the number of times a
modifiable alias of them has been requested. -/
structure packet where
  data : List uint8
  modifiable_requests : Nat
  deriving DecidableEq

/-- An `ipv4addr` as it lies in the header: four bytes in wire order. -/
structure ipv4addr where
  b0 : uint8
  b1 : uint8
  b2 : uint8
  b3 : uint8
  deriving DecidableEq

/-- The fields of `struct ipv4_header` that tcp.c reads. -/
structure ipv4_header where
  src : ipv4addr
  dst : ipv4addr
  proto : uint8
  deriving DecidableEq

/-- The IPv4 view `struct ipv4` handed to the TCP layer: the capture packet,
the header fields, and the answers of `ipv4_get_hdr_len` and
`ipv4_get_payload_length`. -/
structure ipv4 where
  packet : packet
  header : ipv4_header
  hdr_len : Nat
  payload_length : Nat
  deriving DecidableEq

/-- Collaborator `ipv4_get_hdr_len`. -/
def ipv4_get_hdr_len (ip : ipv4) : Nat := ip.hdr_len

/-- Collaborator `ipv4_get_payload_length`. -/
def ipv4_get_payload_length (ip : ipv4) : Nat := ip.payload_length

/-- Collaborator `ipv4_get_proto`. -/
def ipv4_get_proto (ip : ipv4) : Nat := ip.header.proto.val

/-- Collaborator `ipv4_get_payload`: the read-only payload pointer. -/
def ipv4_get_payload (_ip : ipv4) : Ptr := ⟨Base.ipv4_payload, 0⟩

/-- Collaborator `packet_data_modifiable`: a modifiable alias of the packet
bytes; every call is counted. -/
def packet_data_modifiable (pk : packet) : Ptr × packet :=
  (⟨Base.data_modifiable, 0⟩, { pk with modifiable_requests := pk.modifiable_requests + 1 })

/-- Index in the packet buffer of the byte a pointer designates. -/
def addr (ip : ipv4) (q : Ptr) : Nat :=
  match q.base with
  | Base.ipv4_payload => ipv4_get_hdr_len ip + q.off
  | Base.data_modifiable => q.off

/-- The `n` bytes found at a pointer. -/
def read_bytes (ip : ipv4) (q : Ptr) (n : Nat) : List uint8 :=
  (ip.packet.data.drop (addr ip q)).take n

/-- The byte found at a pointer. -/
def read8 (ip : ipv4) (q : Ptr) : uint8 := ip.packet.data.getD (addr ip q) 0

/-- Store of a `uint16` object at a pointer. -/
def write16 (ip : ipv4) (q : Ptr) (w : Nat) : ipv4 :=
  { ip with packet := { ip.packet with
      data := (ip.packet.data.set (addr ip q) (byte (w / 256))).set (addr ip q + 1) (byte w) } }

/-! ## Checksum engine -/

/-- The loop `while (sum >> 16) sum = (sum & 0xffff) + (sum >> 16);`.
An iteration that runs makes `sum` smaller, so `sum` itself bounds the number
of iterations; the first argument is that bound. -/
def fold_carry_loop : Nat → Nat → Nat
  | 0, sum => sum
  | fuel + 1, sum =>
    if sum >>> 16 ≠ 0 then fold_carry_loop fuel ((sum &&& 0xffff) + (sum >>> 16)) else sum

/-- End-around carry folding of a sum into 16 bits. -/
def fold_carry (sum : Nat) : Nat := fold_carry_loop sum sum

/-- Sum of the 16-bit words of a byte span, a missing trailing byte read as
zero. -/
def sum_words : List uint8 → Nat
  | [] => 0
  | [b] => b.val * 256
  | b0 :: b1 :: rest => (b0.val * 256 + b1.val) + sum_words rest

/-- Modelled from the spec: `inet_checksum` of the IPv4 module, which is not
part of the sources at hand.  Section 4.1: the Internet checksum of a byte
span, the sum of its 16-bit big-endian words with end-around carry folding,
one's-complemented, an odd trailing byte zero-padded. -/
def inet_checksum (span : List uint8) : Nat := 65535 - fold_carry (sum_words span)

/-! ## tcp.c -/

/-- Modelled from the spec: `sizeof(struct tcp_header)`; the structure is
declared in haka/tcp.h, which is not part of the sources at hand.  Section 6
gives the layout: source port, destination port (16 bits each), sequence and
acknowledgment numbers (32 bits each), header-length/flags, window, checksum,
urgent pointer (16 bits each). -/
def sizeof_tcp_header : Nat := 20

/-- Modelled from the spec: offset of the `checksum` member in
`struct tcp_header` (haka/tcp.h), after ports, sequence numbers,
header-length/flags and window. -/
def checksum_offset : Nat := 16

/-- Modelled from the spec: `TCP_PROTO` of haka/tcp.h, the IPv4 protocol number
of TCP. -/
def TCP_PROTO : Nat := 6

/-- The `struct tcp_pseudo_header` of tcp.c. -/
structure tcp_pseudo_header where
  src : ipv4addr
  dst : ipv4addr
  reserved : uint8
  proto : uint8
  len : Nat
  deriving DecidableEq

/-- Memory image of a `struct tcp_pseudo_header`, `sizeof` = 12 bytes. -/
def tcp_pseudo_header.bytes (h : tcp_pseudo_header) : List uint8 :=
  [h.src.b0, h.src.b1, h.src.b2, h.src.b3, h.dst.b0, h.dst.b1, h.dst.b2, h.dst.b3,
   h.reserved, h.proto] ++ uint16_bytes h.len

/-- The macro call `SWAP_TO_BE(uint16, x)`: the `uint16` whose memory image is
`x` in network byte order. -/
def SWAP_TO_BE_uint16 (x : Nat) : Nat := x % 65536

/-- The `struct tcp` view. -/
structure tcp where
  packet : ipv4
  header : Ptr
  modified : Bool
  invalid_checksum : Bool
  deriving DecidableEq

/-- The failures `tcp_dissect` reports through `error` before returning NULL. -/
inductive dissect_error where
  /-- Reported as "TCP header length should have a minimum size of  %d". -/
  | TooShort
  /-- Reported as "not a tcp packet". -/
  | WrongProtocol
  /-- Reported as "Failed to allocate memory". -/
  | AllocationFailed
  deriving DecidableEq

/-- The message handed to `error` for each failure. -/
def dissect_error.message : dissect_error → String
  | .TooShort => "TCP header length should have a minimum size of  %d"
  | .WrongProtocol => "not a tcp packet"
  | .AllocationFailed => "Failed to allocate memory"

/-- Function `tcp_dissect` (tcp.c lines 17-43); `malloc_ok` tells whether `malloc`
returns a block. -/
def tcp_dissect (malloc_ok : Bool) (packet : ipv4) : Except dissect_error tcp :=
  if ipv4_get_payload_length packet < sizeof_tcp_header then
    .error .TooShort
  else if ipv4_get_proto packet ≠ TCP_PROTO then
    .error .WrongProtocol
  else if !malloc_ok then
    .error .AllocationFailed
  else
    .ok { packet := packet
          header := ipv4_get_payload packet
          modified := false
          invalid_checksum := false }

/-- Function `tcp_pre_modify` (tcp.c lines 57-64). -/
def tcp_pre_modify (t : tcp) : tcp :=
  let t :=
    if !t.modified then
      let r := packet_data_modifiable t.packet.packet
      { t with packet := { t.packet with packet := r.2 }
               header := r.1.add (ipv4_get_hdr_len t.packet) }
    else t
  { t with modified := true, invalid_checksum := true }

/-- Function `tcp_checksum` (tcp.c lines 66-92); the result is an `int16`.
`sum` stays within `long`: it is at most 0x1fffe before the loop. -/
def tcp_checksum (t : tcp) : Int :=
  let tcp_pseudo_h : tcp_pseudo_header :=
    { src := t.packet.header.src
      dst := t.packet.header.dst
      reserved := 0
      proto := t.packet.header.proto
      len := SWAP_TO_BE_uint16 (ipv4_get_payload_length t.packet) }
  let sum1 := uint16_not (inet_checksum tcp_pseudo_h.bytes)
  let sum2 := uint16_not (inet_checksum
    (read_bytes t.packet t.header (ipv4_get_payload_length t.packet)))
  let sum := sum1 + sum2
  let sum := fold_carry sum
  let sum : Int := -(sum : Int) - 1
  to_int16 sum

/-- Function `tcp_verify_checksum` (tcp.c lines 95-98). -/
def tcp_verify_checksum (t : tcp) : Bool := tcp_checksum t == 0

/-- The assignment `tcp->header->checksum = v` to the `uint16` member. -/
def set_checksum (t : tcp) (v : Int) : tcp :=
  { t with packet := write16 t.packet (t.header.add checksum_offset) (to_uint16 v) }

/-- Function `tcp_compute_checksum` (tcp.c lines 100-106). -/
def tcp_compute_checksum (t : tcp) : tcp :=
  let t := tcp_pre_modify t
  let t := set_checksum t 0
  let t := set_checksum t (tcp_checksum t)
  { t with invalid_checksum := false }

/-- Function `tcp_forge` (tcp.c lines 45-49). -/
def tcp_forge (t : tcp) : tcp :=
  if t.invalid_checksum then tcp_compute_checksum t else t

/-- Modelled from the spec: `tcp_get_hdr_len` of haka/tcp.h, which is not part
of the sources at hand.  The header length is read from the header itself: the
4-bit header-length field of the standard TCP header (high half of byte 12),
counted in 32-bit words. -/
def tcp_get_hdr_len (t : tcp) : Nat := (read8 t.packet (t.header.add 12)).val / 16 * 4

/-- Function `tcp_get_payload` (tcp.c lines 108-111). -/
def tcp_get_payload (t : tcp) : Ptr := t.header.add (tcp_get_hdr_len t)

/-- Function `tcp_get_payload_modifiable` (tcp.c lines 113-117). -/
def tcp_get_payload_modifiable (t : tcp) : Ptr × tcp :=
  let t := tcp_pre_modify t
  (tcp_get_payload t, t)

/-- Function `tcp_get_payload_length` (tcp.c lines 119-122): a subtraction in
`size_t`. -/
def tcp_get_payload_length (t : tcp) : Nat :=
  (ipv4_get_payload_length t.packet % SIZE_T_RANGE
    + (SIZE_T_RANGE - tcp_get_hdr_len t % SIZE_T_RANGE)) % SIZE_T_RANGE

/-- The pseudo-header a view is checksummed with, as section 4.1 words it:
source address, destination address, a zero byte, the protocol number and the
payload length as a 16-bit big-endian value. -/
def pseudo_header_bytes (t : tcp) : List uint8 :=
  [t.packet.header.src.b0, t.packet.header.src.b1, t.packet.header.src.b2,
   t.packet.header.src.b3, t.packet.header.dst.b0, t.packet.header.dst.b1,
   t.packet.header.dst.b2, t.packet.header.dst.b3, 0, t.packet.header.proto,
   byte (ipv4_get_payload_length t.packet % 65536 / 256),
   byte (ipv4_get_payload_length t.packet % 65536)]

/-- The segment a view is checksummed over: the IPv4 payload length bytes
found at the header overlay. -/
def segment (t : tcp) : List uint8 :=
  read_bytes t.packet t.header (ipv4_get_payload_length t.packet)

/-- The overlay of a view spans the IPv4 payload length inside the packet
buffer: the bytes the checksum reads exist. -/
def overlay_in_buffer (t : tcp) : Prop :=
  addr t.packet t.header + ipv4_get_payload_length t.packet ≤ t.packet.packet.data.length

instance (t : tcp) : Decidable (overlay_in_buffer t) :=
  inferInstanceAs (Decidable (_ ≤ _))

/-- Number of `packet_data_modifiable` calls made so far on the packet of a
view. -/
def requests (t : tcp) : Nat := t.packet.packet.modifiable_requests

/-- Function `tcp_release` (tcp.c lines 51-54): `free(tcp)`.  The view is gone;
what is left is the packet it pointed to, which is the result. -/
def tcp_release (t : tcp) : ipv4 := t.packet

/-- The view with the bytes of its packet buffer replaced: the same view over
a packet holding other data. -/
def with_data (t : tcp) (d : List uint8) : tcp :=
  { t with packet := { t.packet with packet := { t.packet.packet with data := d } } }

/-- Index in the packet buffer of the first byte of the checksum member, seen
through the overlay a mutator works on. -/
def checksum_index (t : tcp) : Nat :=
  addr (tcp_pre_modify t).packet ((tcp_pre_modify t).header.add checksum_offset)

/-! ## Sequences of operations on a view -/

/-- The operations a holder of a view can call. -/
inductive Op where
  | get_payload
  | get_payload_length
  | checksum
  | verify_checksum
  | forge
  | pre_modify
  | get_payload_modifiable
  | compute_checksum
  deriving DecidableEq

/-- What an operation returns. -/
inductive Value where
  | void
  | ptr (p : Ptr)
  | size (n : Nat)
  | int16 (i : Int)
  | bool (b : Bool)
  deriving DecidableEq

/-- One call: the value returned and the view afterwards.  The functions
taking a `const struct tcp *` leave the view as it is. -/
def Op.call : Op → tcp → Value × tcp
  | .get_payload, t => (.ptr (tcp_get_payload t), t)
  | .get_payload_length, t => (.size (tcp_get_payload_length t), t)
  | .checksum, t => (.int16 (tcp_checksum t), t)
  | .verify_checksum, t => (.bool (tcp_verify_checksum t), t)
  | .forge, t => (.void, tcp_forge t)
  | .pre_modify, t => (.void, tcp_pre_modify t)
  | .get_payload_modifiable, t =>
    let r := tcp_get_payload_modifiable t
    (.ptr r.1, r.2)
  | .compute_checksum, t => (.void, tcp_compute_checksum t)

/-- The view after one call. -/
def Op.step (op : Op) (t : tcp) : tcp := (op.call t).2

/-- The view after a sequence of calls, first call first. -/
def run_ops (ops : List Op) (t : tcp) : tcp := ops.foldl (fun s op => op.step s) t

/-- The mutating operations: those that go through `tcp_pre_modify`
whatever the state of the view. -/
def Op.is_mutator : Op → Bool
  | .pre_modify => true
  | .get_payload_modifiable => true
  | .compute_checksum => true
  | _ => false

/-- The flags of a view agree: a dirty checksum is only recorded on a view
that has taken its modifiable overlay. -/
def flag_inv (t : tcp) : Prop := t.invalid_checksum = true → t.modified = true

/-- The overlay of a view over packet `p` is where its `modified` flag says:
on the read-only IPv4 payload of the untouched packet while the flag is false,
on the modifiable data `ipv4_get_hdr_len` bytes in once it is true. -/
def overlay_inv (p : ipv4) (t : tcp) : Prop :=
  ipv4_get_hdr_len t.packet = ipv4_get_hdr_len p
  ∧ (t.modified = false → t.header = ipv4_get_payload p ∧ t.packet = p)
  ∧ (t.modified = true →
      t.header = (packet_data_modifiable t.packet.packet).1.add (ipv4_get_hdr_len p))

/-! ## Module registry (haka/module.h) -/

/-- The `type` enumeration of `struct module`. -/
inductive module_type where
  | MODULE_UNKNOWN
  | MODULE_PACKET
  | MODULE_LOG
  | MODULE_EXTENSION
  deriving DecidableEq

/-- The `struct module` of haka/module.h.  `handle` identifies the loaded code
unit and `ref` is the reference count.  The function pointer `init` is
represented by the value it returns; calls of `init` and `cleanup` are recorded
in the registry. -/
structure module where
  handle : Nat
  ref : Nat
  type : module_type
  name : String
  description : String
  author : String
  init : Int
  deriving DecidableEq

/-- What resolving a module name against the search path and loading the
matching code unit gives: nothing found, a unit that fails to load, or the
descriptor the unit exports. -/
inductive code_unit where
  | not_found
  | load_failed
  | descriptor (m : module)
  deriving DecidableEq

/-- The failures of the module interface (section 7). -/
inductive module_error where
  | ModuleNotFound
  | ModuleLoadFailed
  | ModuleInitFailed
  | DoubleRelease
  deriving DecidableEq

/-- Modelled from the spec: the process-wide registry of section 3, which
module.h only implies.  The modules registered by name, the handle the next
loaded code unit gets, and the handles on which `init` and `cleanup` were
called, in order. -/
structure module_registry where
  modules : List (String × module)
  next_handle : Nat
  init_calls : List Nat
  cleanup_calls : List Nat
  deriving DecidableEq

/-- Modelled from the spec: the lookup of `module_load` for a registered name,
which is not part of the sources at hand.  Section 4.3: if the name is already
registered, the existing module is returned with its reference count
incremented. -/
def registry_addref_name :
    List (String × module) → String → Option (module × List (String × module))
  | [], _ => none
  | (n, m) :: rest, name =>
    if n = name then
      some ({ m with ref := m.ref + 1 }, (n, { m with ref := m.ref + 1 }) :: rest)
    else
      (registry_addref_name rest name).map (fun r => (r.1, (n, m) :: r.2))

/-- Modelled from the spec: `module_load`, declared in module.h and defined
outside the sources at hand.  Section 4.3: a registered name gives the existing
module with its count incremented and no new `init`; otherwise the name is
resolved on the search path, the code unit loaded and `init` called; a non-zero
return of `init` unloads the unit without `cleanup`; on success the module is
registered with a reference count of one, owned by the caller. -/
def module_load (path : String → code_unit) (module_name : String) (reg : module_registry) :
    Except module_error module × module_registry :=
  match registry_addref_name reg.modules module_name with
  | some (m, modules) => (.ok m, { reg with modules := modules })
  | none =>
    match path module_name with
    | .not_found => (.error .ModuleNotFound, reg)
    | .load_failed => (.error .ModuleLoadFailed, reg)
    | .descriptor d =>
      let m : module := { d with handle := reg.next_handle, ref := 1 }
      let reg := { reg with next_handle := reg.next_handle + 1
                            init_calls := reg.init_calls ++ [m.handle] }
      if d.init ≠ 0 then
        (.error .ModuleInitFailed, reg)
      else
        (.ok m, { reg with modules := (module_name, m) :: reg.modules })

/-- Modelled from the spec: the count update of `module_release` on the module
with a given handle; the flag tells whether the count dropped to zero and the
entry was removed. -/
def registry_release : List (String × module) → Nat → Option (Bool × List (String × module))
  | [], _ => none
  | (n, m) :: rest, h =>
    if m.handle = h then
      if m.ref = 0 then none
      else if m.ref = 1 then some (true, rest)
      else some (false, (n, { m with ref := m.ref - 1 }) :: rest)
    else (registry_release rest h).map (fun r => (r.1, (n, m) :: r.2))

/-- Modelled from the spec: `module_release`, declared in module.h and defined
outside the sources at hand.  Section 4.3: decrement of the reference count; a
release that drops it to zero calls `cleanup`, unloads the code and removes
the entry; a release of a module that is not live is detected. -/
def module_release (reg : module_registry) (handle : Nat) :
    Except module_error module_registry :=
  match registry_release reg.modules handle with
  | none => .error .DoubleRelease
  | some (true, modules) =>
    .ok { reg with modules := modules, cleanup_calls := reg.cleanup_calls ++ [handle] }
  | some (false, modules) => .ok { reg with modules := modules }

/-- A code unit exporting a packet module whose `init` succeeds. -/
def sample_descriptor : module :=
  { handle := 0, ref := 0, type := .MODULE_PACKET, name := "TCP", description := "TCP protocol",
    author := "haka", init := 0 }

/-- A search path on which only "protocol/tcp" resolves. -/
def sample_path (module_name : String) : code_unit :=
  if module_name = "protocol/tcp" then .descriptor sample_descriptor else .not_found

/-- The registry of a process that has loaded nothing. -/
def empty_registry : module_registry :=
  { modules := [], next_handle := 0, init_calls := [], cleanup_calls := [] }

/-! ## Sample packets -/

/-- An IPv4 header without options, 10.0.0.1 → 10.0.0.2, time to live 64, for
a packet of `total` bytes carrying protocol `proto`. -/
def sample_ip_header_bytes (total proto : uint8) : List uint8 :=
  [0x45, 0, 0, total, 0, 0, 0, 0, 64, proto, 0, 0, 10, 0, 0, 1, 10, 0, 0, 2]

/-- A TCP header without options or payload: ports 80 and 8080, sequence
number 1, header length 5 words, SYN, window 512, checksum member 0. -/
def sample_tcp_header_bytes : List uint8 :=
  [0, 80, 0x1f, 0x90, 0, 0, 0, 1, 0, 0, 0, 0, 0x50, 0x02, 2, 0, 0, 0, 0, 0]

/-- An IPv4 packet 10.0.0.1 → 10.0.0.2 carrying `sample_tcp_header_bytes`. -/
def sample_packet : ipv4 :=
  { packet := { data := sample_ip_header_bytes 40 6 ++ sample_tcp_header_bytes
                modifiable_requests := 0 }
    header := { src := ⟨10, 0, 0, 1⟩, dst := ⟨10, 0, 0, 2⟩, proto := 6 }
    hdr_len := 20
    payload_length := 20 }

/-- The view `tcp_dissect` builds over `sample_packet`. -/
def sample_view : tcp :=
  { packet := sample_packet
    header := ipv4_get_payload sample_packet
    modified := false
    invalid_checksum := false }

/-- A UDP datagram of eight bytes (a bare UDP header, port 53 to port 53) in an
IPv4 packet. -/
def udp_packet : ipv4 :=
  { packet := { data := sample_ip_header_bytes 28 17 ++ [0, 53, 0, 53, 0, 8, 0, 0]
                modifiable_requests := 0 }
    header := { src := ⟨10, 0, 0, 1⟩, dst := ⟨10, 0, 0, 2⟩, proto := 17 }
    hdr_len := 20
    payload_length := 8 }

/-- A UDP datagram of twenty bytes (header and twelve bytes of data) in an IPv4
packet. -/
def udp_packet_long : ipv4 :=
  { packet := { data := sample_ip_header_bytes 40 17
                  ++ [0, 53, 0, 53, 0, 20, 0, 0, 1, 2, 3, 4, 5, 6, 7, 8, 9, 10, 11, 12]
                modifiable_requests := 0 }
    header := { src := ⟨10, 0, 0, 1⟩, dst := ⟨10, 0, 0, 2⟩, proto := 17 }
    hdr_len := 20
    payload_length := 20 }

/-- A twenty-byte TCP segment whose header-length field claims fifteen words
(sixty bytes): `sample_tcp_header_bytes` with byte 12 set to 0xf0. -/
def long_header_packet : ipv4 :=
  { packet := { data := sample_ip_header_bytes 40 6 ++
                  [0, 80, 0x1f, 0x90, 0, 0, 0, 1, 0, 0, 0, 0, 0xf0, 0x02, 2, 0, 0, 0, 0, 0]
                modifiable_requests := 0 }
    header := { src := ⟨10, 0, 0, 1⟩, dst := ⟨10, 0, 0, 2⟩, proto := 6 }
    hdr_len := 20
    payload_length := 20 }

/-- The sample packet with the right checksum 0x79ff in the TCP header. -/
def valid_packet : ipv4 :=
  { packet := { data := sample_ip_header_bytes 40 6 ++
                  [0, 80, 0x1f, 0x90, 0, 0, 0, 1, 0, 0, 0, 0, 0x50, 0x02, 2, 0, 0x79, 0xff, 0, 0]
                modifiable_requests := 0 }
    header := { src := ⟨10, 0, 0, 1⟩, dst := ⟨10, 0, 0, 2⟩, proto := 6 }
    hdr_len := 20
    payload_length := 20 }

/-- The view `tcp_dissect` builds over `valid_packet`. -/
def valid_view : tcp :=
  { packet := valid_packet
    header := ipv4_get_payload valid_packet
    modified := false
    invalid_checksum := false }

/-- The view over `valid_packet` after a mutator call and a store through the
modifiable overlay that changes the window from 512 to 1024 (byte 14 of the
TCP header, byte 34 of the packet). -/
def window_changed_view : tcp :=
  with_data (tcp_pre_modify valid_view) (valid_packet.packet.data.set 34 4)

/-! ## Arithmetic of the carry folding -/

/-- Closed form of the folding loop once the bound is large enough. -/
theorem fold_carry_loop_eq (fuel : Nat) :
    ∀ sum, sum ≤ fuel →
      fold_carry_loop fuel sum = if sum = 0 then 0 else (sum - 1) % 65535 + 1 := by
  induction fuel with
  | zero =>
    intro sum h
    have h0 : sum = 0 := by omega
    subst h0
    simp [fold_carry_loop]
  | succ n ih =>
    intro sum h
    unfold fold_carry_loop
    have hs : sum >>> 16 = sum / 65536 := by
      rw [Nat.shiftRight_eq_div_pow]
    have ha : sum &&& 0xffff = sum % 65536 := by
      have := Nat.and_pow_two_sub_one_eq_mod sum 16
      simpa using this
    rw [hs, ha]
    by_cases hq : sum / 65536 = 0
    · simp only [hq, ne_eq, not_true_eq_false, if_false]
      split <;> omega
    · simp only [ne_eq, hq, not_false_eq_true, if_true]
      rw [ih _ (by omega)]
      split <;> split <;> omega

/-- Closed form of `fold_carry`. -/
theorem fold_carry_eq (sum : Nat) :
    fold_carry sum = if sum = 0 then 0 else (sum - 1) % 65535 + 1 :=
  fold_carry_loop_eq sum sum (Nat.le_refl _)

/-- The folding loop leaves with a value that fits 16 bits. -/
theorem fold_carry_lt (sum : Nat) : fold_carry sum < 65536 := by
  rw [fold_carry_eq]; split <;> omega

/-- The two cases of the closed form of `fold_carry`. -/
theorem fold_carry_cases (s : Nat) :
    (s = 0 → fold_carry s = 0) ∧ (s ≠ 0 → fold_carry s = (s - 1) % 65535 + 1) := by
  rw [fold_carry_eq]
  constructor <;> intro h <;> simp [h]

/-- Folding the sum of two folded sums is folding the sum. -/
theorem fold_carry_add (a b : Nat) :
    fold_carry (fold_carry a + fold_carry b) = fold_carry (a + b) := by
  have ha := fold_carry_cases a
  have hb := fold_carry_cases b
  have hab := fold_carry_cases (a + b)
  have hf := fold_carry_cases (fold_carry a + fold_carry b)
  omega

/-- Undoing the complement of `inet_checksum` gives back the folded sum. -/
theorem uint16_not_inet_checksum (span : List uint8) :
    uint16_not (inet_checksum span) = fold_carry (sum_words span) := by
  have := fold_carry_lt (sum_words span)
  unfold uint16_not inet_checksum
  omega

/-- The words of a span that follows an even number of bytes add up
separately. -/
theorem sum_words_append_even :
    ∀ pre rest : List uint8, pre.length % 2 = 0 →
      sum_words (pre ++ rest) = sum_words pre + sum_words rest
  | [], rest, _ => by simp [sum_words]
  | [_], _, h => by simp at h
  | a :: b :: tl, rest, h => by
    have ih := sum_words_append_even tl rest (by simp at h; omega)
    have e : a :: b :: tl ++ rest = a :: b :: (tl ++ rest) := rfl
    rw [e, sum_words, sum_words, ih]
    omega

/-- The folded sum `tcp_checksum` complements. -/
theorem tcp_checksum_eq (t : tcp) :
    tcp_checksum t
      = to_int16 (-(fold_carry (sum_words (pseudo_header_bytes t ++ segment t)) : Int) - 1) := by
  have hp : sum_words (pseudo_header_bytes t ++ segment t)
      = sum_words (pseudo_header_bytes t) + sum_words (segment t) :=
    sum_words_append_even _ _ (by simp [pseudo_header_bytes])
  unfold tcp_checksum
  simp only [uint16_not_inet_checksum, fold_carry_add]
  rw [hp]
  rfl

/-- Replacing one aligned 16-bit word of a span changes the word sum by the
difference of the words. -/
theorem sum_words_set_pair :
    ∀ (l : List uint8) (i : Nat) (x y : uint8), 2 * i + 1 < l.length →
      sum_words ((l.set (2 * i) x).set (2 * i + 1) y)
          + ((l.getD (2 * i) 0).val * 256 + (l.getD (2 * i + 1) 0).val)
        = sum_words l + (x.val * 256 + y.val)
  | [], _, _, _, h => by simp at h
  | [_], _, _, _, h => by simp at h
  | a :: b :: tl, 0, x, y, _ => by
    simp only [Nat.mul_zero, List.set_cons_zero, Nat.zero_add, List.set_cons_succ, sum_words,
      List.getD_cons_zero, List.getD_cons_succ]
    omega
  | a :: b :: tl, i + 1, x, y, h => by
    have ih := sum_words_set_pair tl i x y (by simp at h; omega)
    have e1 : 2 * (i + 1) = (2 * i + 1) + 1 := by omega
    have e2 : 2 * (i + 1) + 1 = ((2 * i + 1) + 1) + 1 := by omega
    rw [e2, e1]
    simp only [List.set_cons_succ, sum_words, List.getD_cons_succ]
    omega

/-- The bytes of a 16-bit value, read back as a word. -/
theorem byte_pair_val (c : Nat) (h : c < 65536) :
    (byte (c / 256)).val * 256 + (byte c).val = c := by
  simp only [byte]
  omega

/-- The arithmetic of compute-then-verify on a span: zero an aligned word,
store there the complement of the folded sum of everything, and the folded sum
of everything becomes 0xffff. -/
theorem sum_words_roundtrip (ph seg : List uint8) (i : Nat)
    (hph : ph.length % 2 = 0) (hi : 2 * i + 1 < seg.length) :
    let seg0 := (seg.set (2 * i) 0).set (2 * i + 1) 0
    let c := 65535 - fold_carry (sum_words (ph ++ seg0))
    let seg1 := (seg0.set (2 * i) (byte (c / 256))).set (2 * i + 1) (byte c)
    fold_carry (sum_words (ph ++ seg1)) = 65535 := by
  intro seg0 c seg1
  have hlen0 : 2 * i + 1 < seg0.length := by simp [seg0]; exact hi
  have h0 := sum_words_set_pair seg i 0 0 hi
  have h1 := sum_words_set_pair seg0 i (byte (c / 256)) (byte c) hlen0
  have hz1 : seg0.getD (2 * i) 0 = 0 := by
    simp only [seg0, List.getD_eq_getElem?_getD, List.getElem?_set]
    split_ifs <;> simp
  have hz2 : seg0.getD (2 * i + 1) 0 = 0 := by
    simp only [seg0, List.getD_eq_getElem?_getD, List.getElem?_set]
    split_ifs <;> simp
  have hc : c < 65536 := by simp only [c]; omega
  have hb := byte_pair_val c hc
  rw [hz1, hz2] at h1
  rw [sum_words_append_even ph seg1 hph]
  have hs0 := sum_words_append_even ph seg0 hph
  have hf := fold_carry_cases (sum_words (ph ++ seg0))
  have hg := fold_carry_cases (sum_words ph + sum_words seg1)
  have hcdef : c = 65535 - fold_carry (sum_words (ph ++ seg0)) := rfl
  simp only [Fin.val_zero] at h1 h0
  change sum_words seg1 + _ = _ at h1
  omega

/-! ## The checksum seen through a view -/

/-- The `uint16` image of the value `tcp_checksum` returns. -/
theorem to_uint16_tcp_checksum (t : tcp) :
    to_uint16 (tcp_checksum t)
      = 65535 - fold_carry (sum_words (pseudo_header_bytes t ++ segment t)) := by
  have hlt := fold_carry_lt (sum_words (pseudo_header_bytes t ++ segment t))
  rw [tcp_checksum_eq]
  unfold to_uint16 to_int16
  simp only
  split_ifs <;> omega

/-- Verification succeeds exactly when the folded sum over pseudo-header and
segment is 0xffff. -/
theorem tcp_verify_checksum_iff (t : tcp) :
    tcp_verify_checksum t = true
      ↔ fold_carry (sum_words (pseudo_header_bytes t ++ segment t)) = 65535 := by
  have hlt := fold_carry_lt (sum_words (pseudo_header_bytes t ++ segment t))
  unfold tcp_verify_checksum
  rw [tcp_checksum_eq, beq_iff_eq]
  unfold to_int16
  simp only
  split_ifs <;> omega

/-- Storing the checksum member rewrites bytes 16 and 17 of the segment. -/
theorem segment_set_checksum (t : tcp) (v : Int) :
    segment (set_checksum t v)
      = ((segment t).set 16 (byte (to_uint16 v / 256))).set 17 (byte (to_uint16 v)) := by
  have e : ∀ (d : List uint8) (a n : Nat) (x y : uint8),
      (((d.set (a + 16) x).set (a + 16 + 1) y).drop a).take n
        = (((d.drop a).take n).set 16 x).set 17 y := by
    intro d a n x y
    rw [List.drop_set, if_neg (by omega), List.drop_set, if_neg (by omega), List.set_take,
      List.set_take]
    have h1 : a + 16 + 1 - a = 17 := by omega
    have h2 : a + 16 - a = 16 := by omega
    rw [h1, h2]
  unfold segment read_bytes set_checksum write16 checksum_offset
  cases hb : t.header.base <;>
    simp only [addr, Ptr.add, hb, ipv4_get_hdr_len, ipv4_get_payload_length, ← Nat.add_assoc] <;>
    exact e _ _ _ _ _

/-- Storing the checksum member leaves the pseudo-header as it was. -/
theorem pseudo_header_bytes_set_checksum (t : tcp) (v : Int) :
    pseudo_header_bytes (set_checksum t v) = pseudo_header_bytes t := rfl

/-- The checksum does not look at the flags of the view. -/
theorem tcp_checksum_flags (t : tcp) (m i : Bool) :
    tcp_checksum { t with modified := m, invalid_checksum := i } = tcp_checksum t := rfl

/-- Length of the segment of a view whose overlay spans the payload length
inside the packet buffer. -/
theorem segment_length (t : tcp)
    (h : addr t.packet t.header + ipv4_get_payload_length t.packet
      ≤ t.packet.packet.data.length) :
    (segment t).length = ipv4_get_payload_length t.packet := by
  unfold segment read_bytes
  simp only [List.length_take, List.length_drop]
  omega

/-- Recomputing the checksum of a view whose segment holds the checksum member
makes it verify. -/
theorem compute_checksum_verifies (t : tcp) (h : 17 < (segment (tcp_pre_modify t)).length) :
    tcp_verify_checksum (tcp_compute_checksum t) = true := by
  have hr := sum_words_roundtrip (pseudo_header_bytes (tcp_pre_modify t))
    (segment (tcp_pre_modify t)) 8 (by simp [pseudo_header_bytes]) (by omega)
  simp only at hr
  rw [tcp_verify_checksum_iff]
  unfold tcp_compute_checksum
  simp only
  show fold_carry (sum_words
    (pseudo_header_bytes (set_checksum (set_checksum (tcp_pre_modify t) 0)
        (tcp_checksum (set_checksum (tcp_pre_modify t) 0)))
      ++ segment (set_checksum (set_checksum (tcp_pre_modify t) 0)
        (tcp_checksum (set_checksum (tcp_pre_modify t) 0))))) = 65535
  rw [segment_set_checksum, pseudo_header_bytes_set_checksum, to_uint16_tcp_checksum,
    segment_set_checksum, pseudo_header_bytes_set_checksum]
  have hz : to_uint16 0 = 0 := rfl
  rw [hz]
  exact hr

/-! ## Flags, overlay and copy requests along a run -/

/-- What one call does to the flags and to the request counter of a view whose
flags agree. -/
theorem step_facts (op : Op) (s : tcp) (h : flag_inv s) :
    flag_inv (op.step s)
    ∧ (op.step s).modified = (s.modified || op.is_mutator)
    ∧ requests (op.step s)
        = requests s + (if !s.modified && op.is_mutator then 1 else 0) := by
  unfold flag_inv at h
  cases op <;> cases hm : s.modified <;> cases hi : s.invalid_checksum <;>
    simp_all [flag_inv, Op.step, Op.call, Op.is_mutator, tcp_forge, tcp_compute_checksum,
      tcp_get_payload_modifiable, tcp_pre_modify, set_checksum, write16, requests,
      packet_data_modifiable]

/-- What a sequence of calls does to the flags and to the request counter. -/
theorem run_ops_facts (ops : List Op) :
    ∀ s : tcp, flag_inv s →
      flag_inv (run_ops ops s)
      ∧ (run_ops ops s).modified = (s.modified || ops.any Op.is_mutator)
      ∧ requests (run_ops ops s)
          = requests s + (if !s.modified && ops.any Op.is_mutator then 1 else 0) := by
  induction ops with
  | nil => intro s h; simp [run_ops, h]
  | cons op rest ih =>
    intro s h
    obtain ⟨h1, h2, h3⟩ := step_facts op s h
    obtain ⟨k1, k2, k3⟩ := ih (op.step s) h1
    have e : run_ops (op :: rest) s = run_ops rest (op.step s) := rfl
    rw [e]
    refine ⟨k1, ?_, ?_⟩
    · rw [k2, h2]; simp [Bool.or_assoc]
    · rw [k3, h3, h2, List.any_cons]
      generalize s.modified = a
      generalize op.is_mutator = b
      generalize rest.any Op.is_mutator = c
      cases a <;> cases b <;> cases c <;> simp

/-- A run extended by one call. -/
theorem run_ops_concat (ops : List Op) (op : Op) (s : tcp) :
    run_ops (ops ++ [op]) s = op.step (run_ops ops s) := by
  simp [run_ops, List.foldl_append]

/-- A view fresh from `tcp_dissect`. -/
theorem tcp_dissect_ok (malloc_ok : Bool) (packet : ipv4) (v : tcp)
    (h : tcp_dissect malloc_ok packet = .ok v) :
    v = { packet := packet, header := ipv4_get_payload packet, modified := false,
          invalid_checksum := false }
    ∧ sizeof_tcp_header ≤ ipv4_get_payload_length packet
    ∧ ipv4_get_proto packet = TCP_PROTO := by
  unfold tcp_dissect at h
  split at h
  · cases h
  · split at h
    · cases h
    · split at h
      · cases h
      · cases h
        refine ⟨rfl, by omega, ?_⟩
        rename_i h2 _
        exact not_not.mp h2

/-- One call keeps the overlay where the `modified` flag says. -/
theorem step_overlay (p : ipv4) (op : Op) (s : tcp) (h : flag_inv s) (ho : overlay_inv p s) :
    overlay_inv p (op.step s) := by
  unfold flag_inv at h
  unfold overlay_inv at ho ⊢
  obtain ⟨h0, h1, h2⟩ := ho
  cases op <;> cases hm : s.modified <;> cases hi : s.invalid_checksum <;>
    simp_all [Op.step, Op.call, tcp_forge, tcp_compute_checksum,
      tcp_get_payload_modifiable, tcp_pre_modify, set_checksum, write16,
      packet_data_modifiable, ipv4_get_hdr_len, ipv4_get_payload, Ptr.add]

/-- A sequence of calls keeps the overlay where the `modified` flag says. -/
theorem run_ops_overlay (p : ipv4) (ops : List Op) :
    ∀ s : tcp, flag_inv s → overlay_inv p s → overlay_inv p (run_ops ops s) := by
  induction ops with
  | nil => intro s _ ho; exact ho
  | cons op rest ih =>
    intro s h ho
    exact ih (op.step s) (step_facts op s h).1 (step_overlay p op s h ho)

/-- No call clears the `modified` flag. -/
theorem step_modified (op : Op) (s : tcp) (h : s.modified = true) :
    (op.step s).modified = true := by
  cases op <;> cases hi : s.invalid_checksum <;>
    simp_all [Op.step, Op.call, tcp_forge, tcp_compute_checksum,
      tcp_get_payload_modifiable, tcp_pre_modify, set_checksum, write16]

/-- No sequence of calls clears the `modified` flag. -/
theorem run_ops_modified (ops : List Op) :
    ∀ s : tcp, s.modified = true → (run_ops ops s).modified = true := by
  induction ops with
  | nil => intro s h; exact h
  | cons op rest ih => intro s h; exact ih (op.step s) (step_modified op s h)

/-- Calling `tcp_pre_modify` twice is calling it once. -/
theorem tcp_pre_modify_idem (t : tcp) : tcp_pre_modify (tcp_pre_modify t) = tcp_pre_modify t := by
  cases hm : t.modified <;> simp [tcp_pre_modify, hm]

/-- The payload length is the same after `tcp_pre_modify`. -/
theorem tcp_pre_modify_payload_length (t : tcp) :
    ipv4_get_payload_length (tcp_pre_modify t).packet = ipv4_get_payload_length t.packet := by
  cases hm : t.modified <;> simp [tcp_pre_modify, hm, ipv4_get_payload_length]

/-- The header length read from a header is at most fifteen words. -/
theorem tcp_get_hdr_len_le (t : tcp) : tcp_get_hdr_len t ≤ 60 := by
  unfold tcp_get_hdr_len
  have := (read8 t.packet (t.header.add 12)).isLt
  omega

/-! ## The bytes `tcp_compute_checksum` touches -/

/-- Address of a pointer moved by `n` bytes. -/
theorem addr_add (ip : ipv4) (q : Ptr) (n : Nat) : addr ip (q.add n) = addr ip q + n := by
  cases hb : q.base <;> simp [addr, Ptr.add, hb, Nat.add_assoc]

/-- Two buffers that agree outside two positions agree everywhere once both
positions are overwritten. -/
theorem set_pair_agree (d1 d2 : List uint8) (c : Nat) (x y : uint8)
    (hlen : d1.length = d2.length)
    (h : ∀ i, i ≠ c → i ≠ c + 1 → d1[i]? = d2[i]?) :
    (d1.set c x).set (c + 1) y = (d2.set c x).set (c + 1) y := by
  apply List.ext_getElem?
  intro i
  simp only [List.getElem?_set, List.length_set, hlen]
  by_cases h1 : c + 1 = i
  · simp [h1]
  · by_cases h0 : c = i
    · simp [h0]
    · simp only [h1, h0, if_false]
      exact h i (fun e => h0 e.symm) (fun e => h1 e.symm)

/-- Overwriting two positions leaves every other position as it was. -/
theorem getElem?_set_pair (d : List uint8) (c i : Nat) (x y : uint8)
    (h0 : i ≠ c) (h1 : i ≠ c + 1) :
    ((d.set c x).set (c + 1) y)[i]? = d[i]? := by
  simp only [List.getElem?_set]
  rw [if_neg (fun e => h1 e.symm), if_neg (fun e => h0 e.symm)]

/-- The buffer after `tcp_compute_checksum`: the checksum member written twice,
first with zero, then with the checksum. -/
theorem tcp_compute_checksum_data (t : tcp) :
    ∃ v : Nat, (tcp_compute_checksum t).packet.packet.data
      = (((t.packet.packet.data.set (checksum_index t) 0).set (checksum_index t + 1) 0).set
          (checksum_index t) (byte (v / 256))).set (checksum_index t + 1) (byte v) := by
  refine ⟨to_uint16 (tcp_checksum (set_checksum (tcp_pre_modify t) 0)), ?_⟩
  have hd : (tcp_pre_modify t).packet.packet.data = t.packet.packet.data := by
    cases hm : t.modified <;> simp [tcp_pre_modify, hm, packet_data_modifiable]
  unfold tcp_compute_checksum checksum_index
  simp only [set_checksum, write16, addr_add, hd]
  rfl

/-- A mutator on a view over other bytes is that mutator, over the other
bytes. -/
theorem tcp_pre_modify_with_data (t : tcp) (d : List uint8) :
    tcp_pre_modify (with_data t d) = with_data (tcp_pre_modify t) d := by
  cases hm : t.modified <;>
    simp [tcp_pre_modify, with_data, hm, packet_data_modifiable, ipv4_get_hdr_len]

/-- The store of the checksum member wipes out what the member held: over
buffers that agree outside the member it gives the same view. -/
theorem set_checksum_with_data (s : tcp) (d : List uint8) (v : Int)
    (hlen : d.length = s.packet.packet.data.length)
    (h : ∀ i, i ≠ addr s.packet (s.header.add checksum_offset) →
      i ≠ addr s.packet (s.header.add checksum_offset) + 1 → d[i]? = s.packet.packet.data[i]?) :
    set_checksum (with_data s d) v = set_checksum s v := by
  have e := set_pair_agree d s.packet.packet.data (addr s.packet (s.header.add checksum_offset))
    (byte (to_uint16 v / 256)) (byte (to_uint16 v)) hlen h
  have ha : ∀ q, addr (with_data s d).packet q = addr s.packet q := fun _ => rfl
  unfold set_checksum write16
  rw [ha]
  simp only [with_data]
  rw [e]

/-- The bytes of a view are those of its packet after `tcp_pre_modify`. -/
theorem tcp_pre_modify_data (t : tcp) :
    (tcp_pre_modify t).packet.packet.data = t.packet.packet.data := by
  cases hm : t.modified <;> simp [tcp_pre_modify, hm, packet_data_modifiable]

/-! ## Header and payload of the segment -/

/-- A mutator moves the overlay of a view to the same bytes of the buffer: on
the read-only payload before, on the modifiable data after. -/
theorem tcp_pre_modify_addr (t : tcp)
    (hov : t.modified = false → t.header = ipv4_get_payload t.packet) (n : Nat) :
    addr (tcp_pre_modify t).packet ((tcp_pre_modify t).header.add n)
      = addr t.packet (t.header.add n) := by
  cases hm : t.modified
  · have hh := hov hm
    simp [tcp_pre_modify, hm, hh, packet_data_modifiable, addr, Ptr.add, ipv4_get_payload,
      ipv4_get_hdr_len]
  · simp [tcp_pre_modify, hm, addr, Ptr.add, ipv4_get_hdr_len]

/-- A mutator leaves the header length a view reads as it was. -/
theorem tcp_pre_modify_hdr_len (t : tcp)
    (hov : t.modified = false → t.header = ipv4_get_payload t.packet) :
    tcp_get_hdr_len (tcp_pre_modify t) = tcp_get_hdr_len t := by
  unfold tcp_get_hdr_len read8
  rw [tcp_pre_modify_addr t hov 12, tcp_pre_modify_data]

/-- A span read at a pointer splits at any length into what lies before and
what lies after. -/
theorem read_bytes_split (ip : ipv4) (q : Ptr) (h n : Nat) :
    read_bytes ip q (h + n) = read_bytes ip q h ++ read_bytes ip (q.add h) n := by
  unfold read_bytes
  rw [addr_add, List.take_add, List.drop_drop]

/-! ## The packet a view leaves behind -/

/-- The checksum of a view is determined by its packet and by the place of its
overlay in the buffer. -/
theorem tcp_checksum_same_bytes (t1 t2 : tcp) (hp : t1.packet = t2.packet)
    (ha : addr t1.packet t1.header = addr t2.packet t2.header) :
    tcp_checksum t1 = tcp_checksum t2 := by
  rw [hp] at ha
  unfold tcp_checksum read_bytes
  rw [hp, ha]

/-- No call changes the header fields or the lengths the IPv4 layer reports. -/
theorem step_meta (op : Op) (s : tcp) :
    (op.step s).packet.header = s.packet.header
    ∧ (op.step s).packet.hdr_len = s.packet.hdr_len
    ∧ (op.step s).packet.payload_length = s.packet.payload_length := by
  cases op <;> cases hm : s.modified <;> cases hi : s.invalid_checksum <;>
    simp [Op.step, Op.call, tcp_forge, tcp_compute_checksum, tcp_get_payload_modifiable,
      tcp_pre_modify, set_checksum, write16, hm, hi]

/-- No sequence of calls changes the header fields or the lengths the IPv4
layer reports. -/
theorem run_ops_meta (ops : List Op) :
    ∀ s : tcp, (run_ops ops s).packet.header = s.packet.header
      ∧ (run_ops ops s).packet.hdr_len = s.packet.hdr_len
      ∧ (run_ops ops s).packet.payload_length = s.packet.payload_length := by
  induction ops with
  | nil => intro s; exact ⟨rfl, rfl, rfl⟩
  | cons op rest ih =>
    intro s
    obtain ⟨a1, a2, a3⟩ := ih (op.step s)
    obtain ⟨b1, b2, b3⟩ := step_meta op s
    have e : run_ops (op :: rest) s = run_ops rest (op.step s) := rfl
    rw [e]
    exact ⟨a1.trans b1, a2.trans b2, a3.trans b3⟩

/-- The packet of a view reached from a dissected view can be dissected again,
and the new view has the checksum of the old one. -/
theorem redissect (malloc_ok : Bool) (packet : ipv4) (v : tcp) (ops : List Op)
    (hv : tcp_dissect malloc_ok packet = .ok v) :
    ∃ w, tcp_dissect true (run_ops ops v).packet = .ok w
      ∧ tcp_checksum w = tcp_checksum (run_ops ops v) := by
  obtain ⟨e, hl, hp⟩ := tcp_dissect_ok malloc_ok packet v hv
  have hf : flag_inv v := by rw [e]; intro h; cases h
  have ho : overlay_inv packet v := by
    rw [e]
    exact ⟨rfl, fun _ => ⟨rfl, rfl⟩, fun h => by cases h⟩
  obtain ⟨o0, o1, o2⟩ := run_ops_overlay packet ops v hf ho
  obtain ⟨m1, _, m3⟩ := run_ops_meta ops v
  have hvp : v.packet = packet := by rw [e]
  rw [hvp] at m1 m3
  have hl2 : ¬ ipv4_get_payload_length (run_ops ops v).packet < sizeof_tcp_header := by
    unfold ipv4_get_payload_length at hl ⊢
    rw [m3]
    omega
  have hp2 : ¬ ipv4_get_proto (run_ops ops v).packet ≠ TCP_PROTO := by
    unfold ipv4_get_proto at hp ⊢
    rw [m1]
    exact not_not.mpr hp
  refine ⟨{ packet := (run_ops ops v).packet, header := ipv4_get_payload (run_ops ops v).packet,
            modified := false, invalid_checksum := false }, ?_, ?_⟩
  · unfold tcp_dissect
    rw [if_neg hl2, if_neg hp2]
    rfl
  · refine tcp_checksum_same_bytes _ _ rfl ?_
    cases hm : (run_ops ops v).modified
    · rw [(o1 hm).1]
      rfl
    · rw [o2 hm]
      simp [addr, Ptr.add, packet_data_modifiable, ipv4_get_payload, o0]

/-! ## Module registry -/

/-- A name borne by no entry is not found by the lookup of `module_load`. -/
theorem registry_addref_name_none (l : List (String × module)) (name : String)
    (h : ∀ e ∈ l, e.1 ≠ name) : registry_addref_name l name = none := by
  induction l with
  | nil => rfl
  | cons e rest ih =>
    obtain ⟨n, m⟩ := e
    have hn : n ≠ name := h (n, m) (List.mem_cons_self _ _)
    have hr := ih (fun e he => h e (List.mem_cons_of_mem _ he))
    simp [registry_addref_name, hn, hr]

/-! ## Checksum claims -/

/-- C1: compute-then-verify round trip.  For every view over a segment of at
least `sizeof(struct tcp_header)` bytes lying inside the packet buffer, whatever
the addresses, the bytes, the length parity, the old checksum member and the
flags, `tcp_verify_checksum` returns true after `tcp_compute_checksum`. -/
theorem tcp_compute_then_verify (t : tcp)
    (hlen : sizeof_tcp_header ≤ ipv4_get_payload_length t.packet)
    (hbuf : overlay_in_buffer (tcp_pre_modify t)) :
    tcp_verify_checksum (tcp_compute_checksum t) = true := by
  apply compute_checksum_verifies
  rw [segment_length _ hbuf]
  have e : ipv4_get_payload_length (tcp_pre_modify t).packet
      = ipv4_get_payload_length t.packet := by
    unfold tcp_pre_modify ipv4_get_payload_length
    simp only
    split <;> rfl
  unfold sizeof_tcp_header at hlen
  omega

/-- Witness of C1 on the sample view (twenty-byte segment, stale checksum). -/
theorem tcp_compute_then_verify_witness :
    sizeof_tcp_header ≤ ipv4_get_payload_length sample_view.packet
    ∧ overlay_in_buffer (tcp_pre_modify sample_view)
    ∧ tcp_verify_checksum (tcp_compute_checksum sample_view) = true :=
  ⟨by decide, by decide, tcp_compute_then_verify sample_view (by decide) (by decide)⟩

/-- C2: the value `tcp_checksum` returns is, as a 16-bit pattern, the
complement, taken once, of the folded word sum over the 12-byte pseudo-header
followed by the segment; that is `inet_checksum` of the concatenation, and the
`int16` returned is that value converted to `int16`. -/
theorem tcp_checksum_is_reference (t : tcp) :
    (pseudo_header_bytes t).length = 12
    ∧ to_uint16 (tcp_checksum t)
        = 65535 - fold_carry (sum_words (pseudo_header_bytes t ++ segment t))
    ∧ to_uint16 (tcp_checksum t) = inet_checksum (pseudo_header_bytes t ++ segment t)
    ∧ tcp_checksum t = to_int16 (inet_checksum (pseudo_header_bytes t ++ segment t)) := by
  refine ⟨rfl, to_uint16_tcp_checksum t, to_uint16_tcp_checksum t, ?_⟩
  have hlt := fold_carry_lt (sum_words (pseudo_header_bytes t ++ segment t))
  rw [tcp_checksum_eq]
  unfold inet_checksum to_int16
  simp only
  split_ifs <;> omega

/-! ## Dissection claims -/

/-- C3: a packet whose IPv4 payload is shorter than `sizeof(struct tcp_header)`
is refused with TooShort, whatever its protocol number, its bytes and the
outcome of `malloc`. -/
theorem tcp_dissect_too_short (malloc_ok : Bool) (packet : ipv4)
    (h : ipv4_get_payload_length packet < sizeof_tcp_header) :
    tcp_dissect malloc_ok packet = .error .TooShort := by
  unfold tcp_dissect
  rw [if_pos h]

/-- Witness of C3 on an eight-byte UDP datagram. -/
theorem tcp_dissect_too_short_witness :
    ipv4_get_payload_length udp_packet < sizeof_tcp_header
    ∧ tcp_dissect true udp_packet = .error .TooShort :=
  ⟨by decide, tcp_dissect_too_short true udp_packet (by decide)⟩

/-- C4 as stated fails: a packet that is not TCP and whose payload is shorter
than the TCP header is refused with TooShort, not WrongProtocol. -/
theorem tcp_dissect_not_tcp_reports_too_short :
    ipv4_get_proto udp_packet ≠ TCP_PROTO
    ∧ tcp_dissect true udp_packet = .error .TooShort
    ∧ tcp_dissect true udp_packet ≠ .error .WrongProtocol := by
  refine ⟨by decide, rfl, ?_⟩
  intro h
  cases h

/-- C4 amended: a packet whose protocol number is not `TCP_PROTO` never yields
a view; the error is WrongProtocol when the payload holds at least
`sizeof(struct tcp_header)` bytes and TooShort otherwise. -/
theorem tcp_dissect_wrong_protocol (malloc_ok : Bool) (packet : ipv4)
    (h : ipv4_get_proto packet ≠ TCP_PROTO) :
    (∀ v, tcp_dissect malloc_ok packet ≠ .ok v)
    ∧ (sizeof_tcp_header ≤ ipv4_get_payload_length packet →
        tcp_dissect malloc_ok packet = .error .WrongProtocol)
    ∧ (ipv4_get_payload_length packet < sizeof_tcp_header →
        tcp_dissect malloc_ok packet = .error .TooShort) := by
  refine ⟨?_, ?_, ?_⟩
  · intro v hv
    unfold tcp_dissect at hv
    rw [if_pos h] at hv
    split at hv <;> cases hv
  · intro hl
    unfold tcp_dissect
    rw [if_neg (by omega), if_pos h]
  · intro hl
    unfold tcp_dissect
    rw [if_pos hl]

/-- Witness of C4 amended on a twenty-byte UDP datagram. -/
theorem tcp_dissect_wrong_protocol_witness :
    ipv4_get_proto udp_packet_long ≠ TCP_PROTO
    ∧ tcp_dissect true udp_packet_long = .error .WrongProtocol :=
  ⟨by decide, (tcp_dissect_wrong_protocol true udp_packet_long (by decide)).2.1 (by decide)⟩

/-- C5: when `malloc` succeeds, `tcp_dissect` returns a view exactly when the
payload holds at least `sizeof(struct tcp_header)` bytes and the protocol
number is `TCP_PROTO`; the view references the packet given, its overlay is
the read-only IPv4 payload, and both flags are false. -/
theorem tcp_dissect_view_iff (packet : ipv4) :
    ((∃ v, tcp_dissect true packet = .ok v)
      ↔ (sizeof_tcp_header ≤ ipv4_get_payload_length packet
          ∧ ipv4_get_proto packet = TCP_PROTO))
    ∧ (∀ v, tcp_dissect true packet = .ok v →
        v.packet = packet ∧ v.header = ipv4_get_payload packet
          ∧ v.modified = false ∧ v.invalid_checksum = false) := by
  unfold tcp_dissect
  by_cases h1 : ipv4_get_payload_length packet < sizeof_tcp_header
  · rw [if_pos h1]
    constructor
    · constructor
      · rintro ⟨v, hv⟩; cases hv
      · rintro ⟨h, _⟩; omega
    · intro v hv; cases hv
  · rw [if_neg h1]
    by_cases h2 : ipv4_get_proto packet ≠ TCP_PROTO
    · rw [if_pos h2]
      constructor
      · constructor
        · rintro ⟨v, hv⟩; cases hv
        · rintro ⟨_, h⟩; exact absurd h h2
      · intro v hv; cases hv
    · rw [if_neg h2]
      simp only [Bool.not_true, Bool.false_eq_true, if_false]
      constructor
      · constructor
        · intro _; exact ⟨by omega, not_not.mp h2⟩
        · intro _; exact ⟨_, rfl⟩
      · intro v hv
        cases hv
        exact ⟨rfl, rfl, rfl, rfl⟩

/-- Witness of C5 on the sample packet. -/
theorem tcp_dissect_view_iff_witness :
    sample_view.packet = sample_packet ∧ sample_view.header = ipv4_get_payload sample_packet
      ∧ sample_view.modified = false ∧ sample_view.invalid_checksum = false :=
  (tcp_dissect_view_iff sample_packet).2 sample_view rfl

/-! ## Copy-on-write claims -/

/-- C6: copy-on-write request count.  `tcp_dissect` makes no request for a
modifiable alias; along any sequence of calls on the view it returns, a call
makes exactly one request when it is a mutator (`tcp_pre_modify`,
`tcp_get_payload_modifiable`, `tcp_compute_checksum`) and no mutator was called
before it, and none otherwise; the total is 1 if the sequence holds a mutator
and 0 if not. -/
theorem cow_request_count (malloc_ok : Bool) (packet : ipv4) (v : tcp)
    (hv : tcp_dissect malloc_ok packet = .ok v) :
    requests v = packet.packet.modifiable_requests
    ∧ (∀ (before : List Op) (op : Op),
        requests (op.step (run_ops before v))
          = requests (run_ops before v)
            + (if op.is_mutator && !(before.any Op.is_mutator) then 1 else 0))
    ∧ (∀ ops : List Op,
        requests (run_ops ops v) = requests v + (if ops.any Op.is_mutator then 1 else 0)) := by
  obtain ⟨e, _, _⟩ := tcp_dissect_ok malloc_ok packet v hv
  have hf : flag_inv v := by rw [e]; intro h; cases h
  have hm : v.modified = false := by rw [e]
  refine ⟨by rw [e]; rfl, ?_, ?_⟩
  · intro before op
    obtain ⟨k1, k2, _⟩ := run_ops_facts before v hf
    obtain ⟨_, _, s3⟩ := step_facts op (run_ops before v) k1
    rw [s3, k2, hm]
    generalize op.is_mutator = b
    generalize before.any Op.is_mutator = c
    cases b <;> cases c <;> simp
  · intro ops
    obtain ⟨_, _, k3⟩ := run_ops_facts ops v hf
    rw [k3, hm]
    simp

/-- Witness of C6 on the view of the sample packet. -/
theorem cow_request_count_witness :
    tcp_dissect true sample_packet = .ok sample_view
    ∧ requests (run_ops [.checksum, .get_payload, .pre_modify, .forge, .compute_checksum]
        sample_view) = requests sample_view + 1 :=
  ⟨rfl, (cow_request_count true sample_packet sample_view rfl).2.2
    [.checksum, .get_payload, .pre_modify, .forge, .compute_checksum]⟩

/-- C9: overlay invariant.  In every state reached from a dissected view by
any sequence of calls, while `modified` is false the overlay is the read-only
IPv4 payload of the packet, which is as it was given; when `modified` is true
the overlay is the modifiable data at offset `ipv4_get_hdr_len`; and no call
and no further sequence of calls brings `modified` back to false. -/
theorem overlay_invariant (malloc_ok : Bool) (packet : ipv4) (v : tcp) (ops : List Op)
    (hv : tcp_dissect malloc_ok packet = .ok v) :
    ((run_ops ops v).modified = false →
        (run_ops ops v).header = ipv4_get_payload packet ∧ (run_ops ops v).packet = packet)
    ∧ ((run_ops ops v).modified = true →
        (run_ops ops v).header
          = (packet_data_modifiable (run_ops ops v).packet.packet).1.add
              (ipv4_get_hdr_len packet))
    ∧ (∀ op : Op, (run_ops ops v).modified = true → (op.step (run_ops ops v)).modified = true)
    ∧ (∀ more : List Op, (run_ops ops v).modified = true →
        (run_ops (ops ++ more) v).modified = true) := by
  obtain ⟨e, _, _⟩ := tcp_dissect_ok malloc_ok packet v hv
  have hf : flag_inv v := by rw [e]; intro h; cases h
  have ho : overlay_inv packet v := by
    rw [e]
    exact ⟨rfl, fun _ => ⟨rfl, rfl⟩, fun h => by cases h⟩
  obtain ⟨_, o1, o2⟩ := run_ops_overlay packet ops v hf ho
  refine ⟨o1, o2, fun op h => step_modified op _ h, ?_⟩
  intro more h
  have e2 : run_ops (ops ++ more) v = run_ops more (run_ops ops v) := by
    simp [run_ops, List.foldl_append]
  rw [e2]
  exact run_ops_modified more _ h

/-- Witness of C9 on the view of the sample packet after a mutation. -/
theorem overlay_invariant_witness :
    tcp_dissect true sample_packet = .ok sample_view
    ∧ (run_ops [.verify_checksum, .get_payload_modifiable, .forge] sample_view).header
        = ⟨Base.data_modifiable, 20⟩ :=
  ⟨rfl, (overlay_invariant true sample_packet sample_view
    [.verify_checksum, .get_payload_modifiable, .forge] rfl).2.1 (by decide)⟩

/-! ## Header-length claim -/

/-- C7 as stated fails: `tcp_dissect` returns a view over a twenty-byte segment
whose header-length field says sixty bytes, and `tcp_get_payload_length` of
that view wraps around to 2^64 - 40. -/
theorem long_header_accepted :
    ∃ v, tcp_dissect true long_header_packet = .ok v
      ∧ ipv4_get_payload_length v.packet = 20
      ∧ tcp_get_hdr_len v = 60
      ∧ tcp_get_payload_length v = 18446744073709551576 :=
  ⟨_, rfl, by decide, by decide, by decide⟩

/-- C7 amended: `tcp_dissect` does not look at the header-length field.  For a
view it returns, over a payload length that fits `size_t`, the header length
is at most sixty bytes; when it is at most the payload length,
`tcp_get_payload_length` is their difference, computed without wrap-around and
at most the payload length; when it is larger the subtraction wraps modulo
2^64. -/
theorem tcp_get_payload_length_spec (malloc_ok : Bool) (packet : ipv4) (v : tcp)
    (hv : tcp_dissect malloc_ok packet = .ok v)
    (hL : ipv4_get_payload_length packet < SIZE_T_RANGE) :
    tcp_get_hdr_len v ≤ 60
    ∧ (tcp_get_hdr_len v ≤ ipv4_get_payload_length packet →
        tcp_get_payload_length v = ipv4_get_payload_length packet - tcp_get_hdr_len v
        ∧ tcp_get_payload_length v ≤ ipv4_get_payload_length packet)
    ∧ (ipv4_get_payload_length packet < tcp_get_hdr_len v →
        tcp_get_payload_length v
          = ipv4_get_payload_length packet + SIZE_T_RANGE - tcp_get_hdr_len v) := by
  obtain ⟨e, _, _⟩ := tcp_dissect_ok malloc_ok packet v hv
  have hp : v.packet = packet := by rw [e]
  have h60 := tcp_get_hdr_len_le v
  unfold tcp_get_payload_length
  rw [hp]
  unfold SIZE_T_RANGE at hL ⊢
  norm_num at hL ⊢
  refine ⟨h60, ?_, ?_⟩
  · intro h
    omega
  · intro h
    omega

/-- Witness of C7 amended on the view of the sample packet. -/
theorem tcp_get_payload_length_spec_witness :
    tcp_dissect true sample_packet = .ok sample_view
    ∧ ipv4_get_payload_length sample_packet < SIZE_T_RANGE
    ∧ tcp_get_hdr_len sample_view ≤ ipv4_get_payload_length sample_packet
    ∧ tcp_get_payload_length sample_view
        = ipv4_get_payload_length sample_packet - tcp_get_hdr_len sample_view :=
  ⟨rfl, by decide, by decide,
    ((tcp_get_payload_length_spec true sample_packet sample_view rfl (by decide)).2.1
      (by decide)).1⟩

/-! ## Forging claims -/

/-- C8 as stated fails: the sample packet is accepted by `tcp_dissect`, its
stored checksum is stale, and dissect, forge, verify returns false. -/
theorem dissect_forge_verify_stale :
    tcp_dissect true sample_packet = .ok sample_view
    ∧ tcp_verify_checksum (tcp_forge sample_view) = false :=
  ⟨rfl, by decide⟩

/-- C8 amended: on a view fresh from `tcp_dissect`, `tcp_forge` changes nothing,
so verification after it returns what verification of the packet as received
returns; once a mutator has marked the view, forge then verify returns true. -/
theorem dissect_forge_verify (malloc_ok : Bool) (packet : ipv4) (v : tcp)
    (hv : tcp_dissect malloc_ok packet = .ok v) :
    tcp_forge v = v
    ∧ tcp_verify_checksum (tcp_forge v) = tcp_verify_checksum v
    ∧ (overlay_in_buffer (tcp_pre_modify v) →
        tcp_verify_checksum (tcp_forge (tcp_pre_modify v)) = true) := by
  obtain ⟨e, hl, _⟩ := tcp_dissect_ok malloc_ok packet v hv
  have hi : v.invalid_checksum = false := by rw [e]
  have hp : v.packet = packet := by rw [e]
  have hf : tcp_forge v = v := by simp [tcp_forge, hi]
  refine ⟨hf, by rw [hf], ?_⟩
  intro hb
  have hd : (tcp_pre_modify v).invalid_checksum = true := by
    cases hm : v.modified <;> simp [tcp_pre_modify, hm]
  have hfc : tcp_forge (tcp_pre_modify v) = tcp_compute_checksum (tcp_pre_modify v) := by
    simp [tcp_forge, hd]
  rw [hfc]
  apply compute_checksum_verifies
  rw [tcp_pre_modify_idem, segment_length _ hb, tcp_pre_modify_payload_length, hp]
  unfold sizeof_tcp_header at hl
  omega

/-- Witness of C8 amended on the view of the sample packet. -/
theorem dissect_forge_verify_witness :
    tcp_dissect true sample_packet = .ok sample_view
    ∧ overlay_in_buffer (tcp_pre_modify sample_view)
    ∧ tcp_verify_checksum (tcp_forge (tcp_pre_modify sample_view)) = true :=
  ⟨rfl, by decide,
    (dissect_forge_verify true sample_packet sample_view rfl).2.2 (by decide)⟩

/-- C10: forging a dirty view repairs it.  For every view whose
`invalid_checksum` flag is set, over a segment of at least
`sizeof(struct tcp_header)` bytes lying inside the packet buffer, `tcp_forge`
runs `tcp_compute_checksum`; afterwards the flag is false and
`tcp_verify_checksum` returns true. -/
theorem tcp_forge_repairs (t : tcp)
    (hd : t.invalid_checksum = true)
    (hlen : sizeof_tcp_header ≤ ipv4_get_payload_length t.packet)
    (hbuf : overlay_in_buffer (tcp_pre_modify t)) :
    tcp_forge t = tcp_compute_checksum t
    ∧ (tcp_forge t).invalid_checksum = false
    ∧ tcp_verify_checksum (tcp_forge t) = true := by
  have hf : tcp_forge t = tcp_compute_checksum t := by simp [tcp_forge, hd]
  refine ⟨hf, ?_, ?_⟩
  · rw [hf]; rfl
  · rw [hf]
    apply compute_checksum_verifies
    rw [segment_length _ hbuf, tcp_pre_modify_payload_length]
    unfold sizeof_tcp_header at hlen
    omega

/-- Witness of C10 on the sample view after `tcp_get_payload_modifiable`. -/
theorem tcp_forge_repairs_witness :
    (tcp_get_payload_modifiable sample_view).2.invalid_checksum = true
    ∧ (tcp_forge (tcp_get_payload_modifiable sample_view).2).invalid_checksum = false
    ∧ tcp_verify_checksum (tcp_forge (tcp_get_payload_modifiable sample_view).2) = true :=
  ⟨by decide, (tcp_forge_repairs (tcp_get_payload_modifiable sample_view).2 (by decide)
    (by decide) (by decide)).2⟩

/-! ## Flag claims -/

/-- C13: every mutator marks the view.  Whatever the flags were, after
`tcp_pre_modify` and after `tcp_get_payload_modifiable` both `modified` and
`invalid_checksum` are true, and the view still holds the same packet: same
header fields, same lengths, same bytes. -/
theorem mutator_marks_view (t : tcp) :
    (tcp_pre_modify t).modified = true
    ∧ (tcp_pre_modify t).invalid_checksum = true
    ∧ (tcp_get_payload_modifiable t).2.modified = true
    ∧ (tcp_get_payload_modifiable t).2.invalid_checksum = true
    ∧ (tcp_get_payload_modifiable t).2 = tcp_pre_modify t
    ∧ (tcp_pre_modify t).packet.header = t.packet.header
    ∧ ipv4_get_hdr_len (tcp_pre_modify t).packet = ipv4_get_hdr_len t.packet
    ∧ ipv4_get_payload_length (tcp_pre_modify t).packet = ipv4_get_payload_length t.packet
    ∧ (tcp_pre_modify t).packet.packet.data = t.packet.packet.data := by
  cases hm : t.modified <;>
    simp [tcp_pre_modify, tcp_get_payload_modifiable, hm, packet_data_modifiable,
      ipv4_get_hdr_len, ipv4_get_payload_length]

/-- C15: flag invariant.  In every state reached from a dissected view by any
sequence of calls, `invalid_checksum` implies `modified`; hence `tcp_forge`
on such a state, dirty or not, asks for no new modifiable copy. -/
theorem flag_invariant (malloc_ok : Bool) (packet : ipv4) (v : tcp) (ops : List Op)
    (hv : tcp_dissect malloc_ok packet = .ok v) :
    ((run_ops ops v).invalid_checksum = true → (run_ops ops v).modified = true)
    ∧ ((run_ops ops v).invalid_checksum = true →
        requests (tcp_forge (run_ops ops v)) = requests (run_ops ops v)) := by
  obtain ⟨e, _, _⟩ := tcp_dissect_ok malloc_ok packet v hv
  have hf : flag_inv v := by rw [e]; intro h; cases h
  obtain ⟨k1, _, _⟩ := run_ops_facts ops v hf
  refine ⟨k1, ?_⟩
  intro hd
  have hm := k1 hd
  obtain ⟨_, _, s3⟩ := step_facts Op.forge (run_ops ops v) k1
  have e2 : Op.forge.step (run_ops ops v) = tcp_forge (run_ops ops v) := rfl
  rw [e2] at s3
  rw [s3, hm]
  simp [Op.is_mutator]

/-- Witness of C15: the sample view after a payload mutation is dirty and
modified, and forging it asks for no further copy. -/
theorem flag_invariant_witness :
    tcp_dissect true sample_packet = .ok sample_view
    ∧ (run_ops [.get_payload_modifiable] sample_view).invalid_checksum = true
    ∧ (run_ops [.get_payload_modifiable] sample_view).modified = true
    ∧ requests (tcp_forge (run_ops [.get_payload_modifiable] sample_view))
        = requests (run_ops [.get_payload_modifiable] sample_view) :=
  ⟨rfl, by decide,
    (flag_invariant true sample_packet sample_view [.get_payload_modifiable] rfl).1 (by decide),
    (flag_invariant true sample_packet sample_view [.get_payload_modifiable] rfl).2 (by decide)⟩

/-- C16: `tcp_forge` is a no-op on clean views and idempotent.  On a view whose
`invalid_checksum` is false it returns the view as it is (flags, overlay,
packet bytes and request counter), and forging twice gives the state forging
once gives. -/
theorem tcp_forge_noop_idempotent (t : tcp) :
    (t.invalid_checksum = false →
        tcp_forge t = t
        ∧ (tcp_forge t).packet.packet.data = t.packet.packet.data
        ∧ requests (tcp_forge t) = requests t)
    ∧ tcp_forge (tcp_forge t) = tcp_forge t := by
  constructor
  · intro h
    have e : tcp_forge t = t := by simp [tcp_forge, h]
    rw [e]
    exact ⟨rfl, rfl, rfl⟩
  · cases h : t.invalid_checksum
    · simp [tcp_forge, h]
    · have e : tcp_forge t = tcp_compute_checksum t := by simp [tcp_forge, h]
      have hc : (tcp_compute_checksum t).invalid_checksum = false := rfl
      rw [e]
      simp [tcp_forge, hc]

/-- Witness of C16 on the clean sample view. -/
theorem tcp_forge_noop_idempotent_witness :
    sample_view.invalid_checksum = false ∧ tcp_forge sample_view = sample_view :=
  ⟨rfl, ((tcp_forge_noop_idempotent sample_view).1 rfl).1⟩

/-! ## Frame claim -/

/-- C17: frame of `tcp_compute_checksum`.  The packet buffer keeps its length
and every byte outside the two bytes of the checksum member; seen through the
overlay, every byte of the segment other than bytes 16 and 17 is unchanged;
the view obtained does not depend on what the checksum member held before
the call; afterwards `modified` is true, `invalid_checksum` is false and the
overlay is the one `tcp_pre_modify` gives. -/
theorem tcp_compute_checksum_frame (t : tcp) :
    (tcp_compute_checksum t).packet.packet.data.length = t.packet.packet.data.length
    ∧ (∀ i, i ≠ checksum_index t → i ≠ checksum_index t + 1 →
        (tcp_compute_checksum t).packet.packet.data[i]? = t.packet.packet.data[i]?)
    ∧ (∀ j, j ≠ 16 → j ≠ 17 →
        (segment (tcp_compute_checksum t))[j]? = (segment (tcp_pre_modify t))[j]?)
    ∧ (∀ d : List uint8, d.length = t.packet.packet.data.length →
        (∀ i, i ≠ checksum_index t → i ≠ checksum_index t + 1 →
          d[i]? = t.packet.packet.data[i]?) →
        tcp_compute_checksum (with_data t d) = tcp_compute_checksum t)
    ∧ (tcp_compute_checksum t).modified = true
    ∧ (tcp_compute_checksum t).invalid_checksum = false
    ∧ (tcp_compute_checksum t).header = (tcp_pre_modify t).header := by
  obtain ⟨v, hv⟩ := tcp_compute_checksum_data t
  refine ⟨?_, ?_, ?_, ?_, ?_, rfl, rfl⟩
  · rw [hv]; simp
  · intro i h0 h1
    rw [hv, getElem?_set_pair _ _ _ _ _ h0 h1, getElem?_set_pair _ _ _ _ _ h0 h1]
  · intro j h0 h1
    have e : segment (tcp_compute_checksum t)
        = segment (set_checksum (set_checksum (tcp_pre_modify t) 0)
            (tcp_checksum (set_checksum (tcp_pre_modify t) 0))) := rfl
    rw [e, segment_set_checksum, segment_set_checksum,
      getElem?_set_pair _ 16 _ _ _ h0 h1, getElem?_set_pair _ 16 _ _ _ h0 h1]
  · intro d hlen h
    have hs : set_checksum (tcp_pre_modify (with_data t d)) 0
        = set_checksum (tcp_pre_modify t) 0 := by
      rw [tcp_pre_modify_with_data]
      apply set_checksum_with_data
      · rw [tcp_pre_modify_data]; exact hlen
      · intro i h0 h1
        rw [tcp_pre_modify_data]
        exact h i h0 h1
    unfold tcp_compute_checksum
    simp only [hs]
  · cases hm : t.modified <;> simp [tcp_compute_checksum, tcp_pre_modify, set_checksum, hm]

/-- Witness of C17: the sample view, and the sample view with 0xbeef in the
checksum member, get the same checksum stored. -/
theorem tcp_compute_checksum_frame_witness :
    tcp_compute_checksum
        (with_data sample_view
          ((sample_packet.packet.data.set 36 0xbe).set 37 0xef))
      = tcp_compute_checksum sample_view :=
  (tcp_compute_checksum_frame sample_view).2.2.2.1
    ((sample_packet.packet.data.set 36 0xbe).set 37 0xef) (by decide)
    (fun i h0 h1 => getElem?_set_pair sample_packet.packet.data 36 i 0xbe 0xef h0 h1)

/-! ## Payload claim -/

/-- C14: payload span.  For a view whose header length `h` is at most the IPv4
payload length `L` (a `size_t`), whose overlay is the IPv4 payload while it is
unmodified: `tcp_get_payload` is `h` bytes past the overlay,
`tcp_get_payload_length` is `L - h`, the segment is the `h` header bytes
followed by the payload bytes, and `tcp_get_payload_modifiable` returns the
offset `h` in the overlay left by `tcp_pre_modify`, which designates the same
byte of the packet buffer. -/
theorem payload_span (t : tcp)
    (hL : ipv4_get_payload_length t.packet < SIZE_T_RANGE)
    (hh : tcp_get_hdr_len t ≤ ipv4_get_payload_length t.packet)
    (hov : t.modified = false → t.header = ipv4_get_payload t.packet) :
    tcp_get_payload t = t.header.add (tcp_get_hdr_len t)
    ∧ tcp_get_payload_length t = ipv4_get_payload_length t.packet - tcp_get_hdr_len t
    ∧ tcp_get_hdr_len t + tcp_get_payload_length t = ipv4_get_payload_length t.packet
    ∧ segment t
        = read_bytes t.packet t.header (tcp_get_hdr_len t)
          ++ read_bytes t.packet (tcp_get_payload t) (tcp_get_payload_length t)
    ∧ (tcp_get_payload_modifiable t).2 = tcp_pre_modify t
    ∧ (tcp_get_payload_modifiable t).1 = (tcp_pre_modify t).header.add (tcp_get_hdr_len t)
    ∧ addr (tcp_get_payload_modifiable t).2.packet (tcp_get_payload_modifiable t).1
        = addr t.packet (tcp_get_payload t) := by
  have h60 := tcp_get_hdr_len_le t
  have hlen : tcp_get_payload_length t
      = ipv4_get_payload_length t.packet - tcp_get_hdr_len t := by
    unfold tcp_get_payload_length
    unfold SIZE_T_RANGE at hL ⊢
    norm_num at hL ⊢
    omega
  have hm : (tcp_get_payload_modifiable t).1
      = (tcp_pre_modify t).header.add (tcp_get_hdr_len t) := by
    unfold tcp_get_payload_modifiable tcp_get_payload
    simp only
    rw [tcp_pre_modify_hdr_len t hov]
  refine ⟨rfl, hlen, by omega, ?_, rfl, hm, ?_⟩
  · unfold segment tcp_get_payload
    rw [hlen, ← read_bytes_split]
    congr 1
    omega
  · rw [hm]
    exact tcp_pre_modify_addr t hov (tcp_get_hdr_len t)

/-- Witness of C14 on the sample view: header length 20 of 20 bytes, payload
at offset 20 with length 0. -/
theorem payload_span_witness :
    tcp_get_hdr_len sample_view ≤ ipv4_get_payload_length sample_view.packet
    ∧ tcp_get_payload sample_view = ⟨Base.ipv4_payload, 20⟩
    ∧ tcp_get_payload_length sample_view = 0
    ∧ (tcp_get_payload_modifiable sample_view).1 = ⟨Base.data_modifiable, 40⟩ :=
  ⟨by decide,
    (payload_span sample_view (by decide) (by decide) (fun _ => rfl)).1,
    (payload_span sample_view (by decide) (by decide) (fun _ => rfl)).2.1,
    (payload_span sample_view (by decide) (by decide) (fun _ => rfl)).2.2.2.2.2.1⟩

/-! ## Release claim -/

/-- C11 as stated fails: a packet with a valid checksum is dissected, a mutator
is called and the window is changed, so the view is dirty; `tcp_release` then
leaves a packet whose stored checksum does not verify. -/
theorem tcp_release_leaves_stale_checksum :
    tcp_dissect true valid_packet = .ok valid_view
    ∧ tcp_verify_checksum valid_view = true
    ∧ window_changed_view.invalid_checksum = true
    ∧ tcp_release window_changed_view = window_changed_view.packet
    ∧ ∃ w, tcp_dissect true (tcp_release window_changed_view) = .ok w
        ∧ tcp_verify_checksum w = false :=
  ⟨rfl, by decide, by decide, rfl, _, rfl, by decide⟩

/-- C11 amended: `tcp_release` only discards the view.  For every state reached
from a dissected view, the packet left behind is the packet of the view,
untouched, and its stored checksum verifies exactly when it verified through
the view before the release; when the owner calls `tcp_forge` on a dirty view
(segment inside the packet buffer) before `tcp_release`, the checksum stored
in the packet left behind verifies. -/
theorem tcp_release_spec (malloc_ok : Bool) (packet : ipv4) (v : tcp) (ops : List Op)
    (hv : tcp_dissect malloc_ok packet = .ok v) :
    tcp_release (run_ops ops v) = (run_ops ops v).packet
    ∧ (∃ w, tcp_dissect true (tcp_release (run_ops ops v)) = .ok w
        ∧ tcp_verify_checksum w = tcp_verify_checksum (run_ops ops v))
    ∧ ((run_ops ops v).invalid_checksum = true →
        overlay_in_buffer (tcp_pre_modify (run_ops ops v)) →
        ∃ w, tcp_dissect true (tcp_release (tcp_forge (run_ops ops v))) = .ok w
          ∧ tcp_verify_checksum w = true) := by
  refine ⟨rfl, ?_, ?_⟩
  · obtain ⟨w, hw, hc⟩ := redissect malloc_ok packet v ops hv
    exact ⟨w, hw, by unfold tcp_verify_checksum; rw [hc]⟩
  · intro hd hb
    obtain ⟨w, hw, hc⟩ := redissect malloc_ok packet v (ops ++ [Op.forge]) hv
    have e : run_ops (ops ++ [Op.forge]) v = tcp_forge (run_ops ops v) :=
      run_ops_concat ops Op.forge v
    rw [e] at hw hc
    refine ⟨w, hw, ?_⟩
    have hf : tcp_forge (run_ops ops v) = tcp_compute_checksum (run_ops ops v) := by
      simp [tcp_forge, hd]
    have hver : tcp_verify_checksum (tcp_compute_checksum (run_ops ops v)) = true := by
      apply compute_checksum_verifies
      obtain ⟨_, hl, _⟩ := tcp_dissect_ok malloc_ok packet v hv
      obtain ⟨_, _, m3⟩ := run_ops_meta ops v
      have hvp : v.packet = packet := by
        obtain ⟨e0, _, _⟩ := tcp_dissect_ok malloc_ok packet v hv
        rw [e0]
      rw [segment_length _ hb, tcp_pre_modify_payload_length]
      unfold ipv4_get_payload_length at hl ⊢
      rw [m3, hvp]
      unfold sizeof_tcp_header at hl
      omega
    unfold tcp_verify_checksum at hver ⊢
    rw [hc, hf]
    exact hver

/-- Witness of C11 amended: the sample view marked by a mutator and forged
before the release leaves a packet whose checksum verifies. -/
theorem tcp_release_spec_witness :
    tcp_dissect true sample_packet = .ok sample_view
    ∧ (run_ops [.pre_modify] sample_view).invalid_checksum = true
    ∧ overlay_in_buffer (tcp_pre_modify (run_ops [.pre_modify] sample_view))
    ∧ ∃ w, tcp_dissect true (tcp_release (tcp_forge (run_ops [.pre_modify] sample_view))) = .ok w
        ∧ tcp_verify_checksum w = true :=
  ⟨rfl, by decide, by decide,
    (tcp_release_spec true sample_packet sample_view [.pre_modify] rfl).2.2
      (by decide) (by decide)⟩

/-! ## Module claim -/

/-- C12: module reference counting.  For a name that is not registered and
resolves to a code unit whose `init` succeeds, two calls of `module_load` give
the same module instance, counted once per call (1, then 2) without any
`module_addref`, with `init` called exactly once; of the two matching calls of
`module_release` the first calls no `cleanup` and the second calls it exactly
once and removes the entry. -/
theorem module_load_twice_release_twice (path path2 : String → code_unit)
    (reg : module_registry) (module_name : String) (d : module)
    (hfresh : ∀ e ∈ reg.modules, e.1 ≠ module_name)
    (hunit : path module_name = .descriptor d)
    (hinit : d.init = 0) :
    ∃ (m1 m2 : module) (reg1 reg2 reg3 reg4 : module_registry),
      module_load path module_name reg = (.ok m1, reg1)
      ∧ module_load path2 module_name reg1 = (.ok m2, reg2)
      ∧ m1.handle = m2.handle
      ∧ m1.ref = 1 ∧ m2.ref = 2
      ∧ reg1.init_calls = reg.init_calls ++ [m1.handle]
      ∧ reg2.init_calls = reg.init_calls ++ [m1.handle]
      ∧ module_release reg2 m1.handle = .ok reg3
      ∧ reg3.cleanup_calls = reg.cleanup_calls
      ∧ module_release reg3 m2.handle = .ok reg4
      ∧ reg4.cleanup_calls = reg.cleanup_calls ++ [m1.handle]
      ∧ reg4.modules = reg.modules := by
  have hnone := registry_addref_name_none reg.modules module_name hfresh
  refine ⟨{ d with handle := reg.next_handle, ref := 1 },
    { d with handle := reg.next_handle, ref := 2 },
    { reg with next_handle := reg.next_handle + 1
               init_calls := reg.init_calls ++ [reg.next_handle]
               modules := (module_name, { d with handle := reg.next_handle, ref := 1 })
                 :: reg.modules },
    { reg with next_handle := reg.next_handle + 1
               init_calls := reg.init_calls ++ [reg.next_handle]
               modules := (module_name, { d with handle := reg.next_handle, ref := 2 })
                 :: reg.modules },
    { reg with next_handle := reg.next_handle + 1
               init_calls := reg.init_calls ++ [reg.next_handle]
               modules := (module_name, { d with handle := reg.next_handle, ref := 1 })
                 :: reg.modules },
    { reg with next_handle := reg.next_handle + 1
               init_calls := reg.init_calls ++ [reg.next_handle]
               cleanup_calls := reg.cleanup_calls ++ [reg.next_handle] },
    ?_, ?_, rfl, rfl, rfl, rfl, rfl, ?_, rfl, ?_, rfl, rfl⟩
  · simp [module_load, hnone, hunit, hinit]
  · simp [module_load, registry_addref_name]
  · simp [module_release, registry_release]
  · simp [module_release, registry_release]

/-- Witness of C12: "protocol/tcp" loaded twice into an empty registry and
released twice. -/
theorem module_load_twice_release_twice_witness :
    ∃ (m1 m2 : module) (reg1 reg2 reg3 reg4 : module_registry),
      module_load sample_path "protocol/tcp" empty_registry = (.ok m1, reg1)
      ∧ module_load sample_path "protocol/tcp" reg1 = (.ok m2, reg2)
      ∧ m1.handle = m2.handle
      ∧ m1.ref = 1 ∧ m2.ref = 2
      ∧ reg1.init_calls = empty_registry.init_calls ++ [m1.handle]
      ∧ reg2.init_calls = empty_registry.init_calls ++ [m1.handle]
      ∧ module_release reg2 m1.handle = .ok reg3
      ∧ reg3.cleanup_calls = empty_registry.cleanup_calls
      ∧ module_release reg3 m2.handle = .ok reg4
      ∧ reg4.cleanup_calls = empty_registry.cleanup_calls ++ [m1.handle]
      ∧ reg4.modules = empty_registry.modules :=
  module_load_twice_release_twice sample_path sample_path empty_registry "protocol/tcp"
    sample_descriptor (fun _ h => by cases h) rfl rfl

end Haka
